import Mathlib

/-!
Verification of the synchronization layer of the `wgpu-hal` Vulkan backend
(`wgpu-hal/src/vulkan/mod.rs`): the `Fence` dual representation
(timeline semaphore vs. emulated fence pool), the `RelaySemaphores` pair,
the per-image `SwapchainSemaphores`, and the `Queue::submit` / `Queue::present`
coordination code, shallowly embedded as pure Lean functions.

Native handles (`vk::Semaphore`, `vk::Fence`) are modelled as `Nat` identities;
the native device is modelled as a record of query/reset oracles; fallible
native calls return `Option` (with `none` for a propagated error) and the
`unwrap` panic in `present` is modelled as `none` of the surrounding call.
-/

/-- Model of the native device (`ash::Device` plus the timeline-semaphore
extension functions) as seen by this layer:
* `fenceStatus h` is `vkGetFenceStatus` on the fence handle `h`
  (`some true` = signaled, `some false` = unsignaled, `none` = the call fails);
* `semCounter s` is `vkGetSemaphoreCounterValue` on the timeline semaphore `s`
  (`none` = the call fails);
* `resetOk hs` tells whether `vkResetFences` on the handle list `hs` succeeds. -/
structure VkDevice where
  fenceStatus : Nat → Option Bool
  semCounter : Nat → Option Nat
  resetOk : List Nat → Bool

/-- The `Fence` enum of the Vulkan backend: either a timeline semaphore handle,
or a pool `{ last_completed, active, free }` of binary `vk::Fence` objects,
where `active` is the list of `(FenceValue, vk::Fence)` pairs still pending. -/
inductive Fence where
  | TimelineSemaphore (raw : Nat)
  | FencePool (last_completed : Nat) (active : List (Nat × Nat)) (free : List Nat)
deriving DecidableEq

/-- `Fence::check_active`: scan `active`, querying the status of each fence
whose value exceeds the running `last_completed` (the `&&` in the source
short-circuits, so fences at or below the running value are not queried), and
return the highest value observed signaled.  A failing native query propagates
as `none`. -/
def Fence.check_active (query : Nat → Option Bool) :
    Nat → List (Nat × Nat) → Option Nat
  | last_completed, [] => some last_completed
  | last_completed, (value, raw) :: rest =>
    if last_completed < value then
      match query raw with
      | none => none
      | some true => Fence.check_active query value rest
      | some false => Fence.check_active query last_completed rest
    else
      Fence.check_active query last_completed rest

/-- `Fence::get_latest`: the highest signalled fence value.  The timeline
variant queries the semaphore counter directly; the pool variant runs
`check_active` from `last_completed` over `active`. -/
def Fence.get_latest (d : VkDevice) : Fence → Option Nat
  | .TimelineSemaphore raw => d.semCounter raw
  | .FencePool last_completed active _free =>
    Fence.check_active d.fenceStatus last_completed active

/-- State-passing form of `Fence::get_latest`.  In the source the method takes
`&self` — an immutable borrow — so the fence after the query is the very
fence that was passed in; the pair returned is (value, fence after the call). -/
def Fence.get_latest_state (d : VkDevice) (f : Fence) : Option (Nat × Fence) :=
  (Fence.get_latest d f).map (fun v => (v, f))

/-- `Fence::maintain`: a no-op on the timeline variant.  On the pool variant it
computes `latest` via `check_active`, pushes the handle of every active entry
with value `≤ latest` onto `free`, and — only if something was pushed — retains
in `active` the entries with value `> latest` and resets the newly freed
handles.  Returns the new fence together with the list of handles passed to
`vkResetFences` (empty when nothing was reclaimed); `none` models a propagated
native error (failed status query or failed reset). -/
def Fence.maintain (d : VkDevice) : Fence → Option (Fence × List Nat)
  | .TimelineSemaphore raw => some (.TimelineSemaphore raw, [])
  | .FencePool last_completed active free =>
    match Fence.check_active d.fenceStatus last_completed active with
    | none => none
    | some latest =>
      let base_free := free.length
      let free2 := free ++ (active.filter (fun p => decide (p.1 ≤ latest))).map Prod.snd
      if free2.length ≠ base_free then
        if d.resetOk (free2.drop base_free) then
          some (.FencePool latest (active.filter (fun p => decide (latest < p.1))) free2,
            free2.drop base_free)
        else
          none
      else
        some (.FencePool latest active free2, [])

/-- Spec-side view for the pool variant: the values of the active entries whose
handle the device reports as signaled. -/
def poolSignaledValues (query : Nat → Option Bool) (active : List (Nat × Nat)) : List Nat :=
  (active.filter (fun p => decide (query p.2 = some true))).map Prod.fst

/-- Spec-side formula for `latest_value` on the pool variant: the maximum of
the signaled active values, floored at `last_completed`. -/
def poolSpecLatest (query : Nat → Option Bool) (last_completed : Nat)
    (active : List (Nat × Nat)) : Nat :=
  (poolSignaledValues query active).foldr max last_completed

/-- A concrete device used to instantiate theorems: fence handle 3 is the only
unsignaled one, the sole timeline counter reads 0, and resets always succeed. -/
def testDevice : VkDevice where
  fenceStatus := fun h => if h = 3 then some false else some true
  semCounter := fun _ => some 0
  resetOk := fun _ => true

theorem check_active_test :
    Fence.check_active testDevice.fenceStatus 2 [(3, 1), (5, 2), (7, 3)] = some 5 := by
  decide

theorem maintain_test :
    Fence.maintain testDevice (.FencePool 2 [(3, 1), (5, 2), (7, 3)] [9]) =
      some (.FencePool 5 [(7, 3)] [9, 1, 2], [1, 2]) := by
  decide

theorem check_active_le (query : Nat → Option Bool) :
    ∀ (active : List (Nat × Nat)) (l r : Nat),
      Fence.check_active query l active = some r → l ≤ r := by
  intro active
  induction active with
  | nil =>
    intro l r h
    simp only [Fence.check_active, Option.some.injEq] at h
    omega
  | cons p rest ih =>
    intro l r h
    obtain ⟨value, raw⟩ := p
    simp only [Fence.check_active] at h
    split at h
    · cases hq : query raw with
      | none => rw [hq] at h; exact absurd h (by simp)
      | some b =>
        rw [hq] at h
        cases b
        · exact ih l r h
        · have := ih value r h
          omega
    · exact ih l r h

theorem check_active_high_unsignaled (query : Nat → Option Bool) :
    ∀ (active : List (Nat × Nat)) (l r : Nat),
      Fence.check_active query l active = some r →
      ∀ p ∈ active, r < p.1 → query p.2 = some false := by
  intro active
  induction active with
  | nil => intro l r _ p hp; exact absurd hp (by simp)
  | cons q rest ih =>
    intro l r h p hp hr
    obtain ⟨value, raw⟩ := q
    simp only [Fence.check_active] at h
    rcases List.mem_cons.mp hp with hp | hp
    · subst hp
      split at h
      · cases hq : query raw with
        | none => rw [hq] at h; exact absurd h (by simp)
        | some b =>
          rw [hq] at h
          cases b
          · rfl
          · have := check_active_le query rest value r h
            omega
      · have := check_active_le query rest l r h
        simp only at hr
        omega
    · split at h
      · cases hq : query raw with
        | none => rw [hq] at h; exact absurd h (by simp)
        | some b =>
          rw [hq] at h
          cases b
          · exact ih l r h p hp hr
          · exact ih value r h p hp hr
      · exact ih l r h p hp hr

theorem check_active_stable (query : Nat → Option Bool) :
    ∀ (active : List (Nat × Nat)) (r : Nat),
      (∀ p ∈ active, p.1 ≤ r ∨ query p.2 = some false) →
      Fence.check_active query r active = some r := by
  intro active
  induction active with
  | nil => intro r _; rfl
  | cons q rest ih =>
    intro r h
    obtain ⟨value, raw⟩ := q
    have hrest : ∀ p ∈ rest, p.1 ≤ r ∨ query p.2 = some false := by
      intro p hp; exact h p (List.mem_cons_of_mem _ hp)
    simp only [Fence.check_active]
    split
    · rcases h (value, raw) (List.mem_cons_self _ _) with hle | hfalse
      · omega
      · rw [hfalse]
        exact ih r hrest
    · exact ih r hrest

theorem foldr_max_base (s : List Nat) :
    ∀ (x l : Nat), s.foldr max (max x l) = max x (s.foldr max l) := by
  induction s with
  | nil => intro x l; rfl
  | cons a s ih =>
    intro x l
    simp only [List.foldr_cons, ih]
    omega

theorem le_foldr_max (s : List Nat) : ∀ l : Nat, l ≤ s.foldr max l := by
  induction s with
  | nil => intro l; exact Nat.le_refl l
  | cons a s ih =>
    intro l
    simp only [List.foldr_cons]
    have := ih l
    omega

theorem poolSpecLatest_cons_true (query : Nat → Option Bool) (value raw : Nat)
    (rest : List (Nat × Nat)) (l : Nat) (h : query raw = some true) :
    poolSpecLatest query l ((value, raw) :: rest) =
      max value (poolSpecLatest query l rest) := by
  simp [poolSpecLatest, poolSignaledValues, List.filter_cons, h]

theorem poolSpecLatest_cons_false (query : Nat → Option Bool) (value raw : Nat)
    (rest : List (Nat × Nat)) (l : Nat) (h : ¬ query raw = some true) :
    poolSpecLatest query l ((value, raw) :: rest) = poolSpecLatest query l rest := by
  simp [poolSpecLatest, poolSignaledValues, List.filter_cons, h]

theorem check_active_spec (query : Nat → Option Bool) :
    ∀ (active : List (Nat × Nat)) (l : Nat),
      (∀ p ∈ active, (query p.2).isSome) →
      Fence.check_active query l active = some (poolSpecLatest query l active) := by
  intro active
  induction active with
  | nil => intro l _; rfl
  | cons q rest ih =>
    intro l hall
    obtain ⟨value, raw⟩ := q
    have hrest : ∀ p ∈ rest, (query p.2).isSome := fun p hp =>
      hall p (List.mem_cons_of_mem _ hp)
    have hhead : (query raw).isSome := hall (value, raw) (List.mem_cons_self _ _)
    have hle : l ≤ poolSpecLatest query l rest := le_foldr_max _ l
    simp only [Fence.check_active]
    by_cases hlv : l < value
    · rw [if_pos hlv]
      cases hq : query raw with
      | none => rw [hq] at hhead; exact absurd hhead (by simp)
      | some b =>
        cases b
        · rw [poolSpecLatest_cons_false query value raw rest l (by simp [hq])]
          exact ih l hrest
        · rw [poolSpecLatest_cons_true query value raw rest l hq]
          rw [ih value hrest]
          have hfold : poolSpecLatest query value rest =
              max value (poolSpecLatest query l rest) := by
            show (poolSignaledValues query rest).foldr max value =
              max value ((poolSignaledValues query rest).foldr max l)
            rw [← foldr_max_base]
            have h2 : max value l = value := by omega
            rw [h2]
          rw [hfold]
    · rw [if_neg hlv]
      cases hq : query raw with
      | none => rw [hq] at hhead; exact absurd hhead (by simp)
      | some b =>
        cases b
        · rw [poolSpecLatest_cons_false query value raw rest l (by simp [hq])]
          exact ih l hrest
        · rw [poolSpecLatest_cons_true query value raw rest l hq]
          rw [ih l hrest]
          have h2 : max value (poolSpecLatest query l rest) =
              poolSpecLatest query l rest := by omega
          rw [h2]

theorem maintain_pool_characterization (d : VkDevice) (l : Nat)
    (active : List (Nat × Nat)) (free : List Nat) (f2 : Fence) (resets : List Nat)
    (h : Fence.maintain d (.FencePool l active free) = some (f2, resets)) :
    ∃ latest, Fence.check_active d.fenceStatus l active = some latest ∧
      l ≤ latest ∧
      f2 = .FencePool latest (active.filter (fun p => decide (latest < p.1)))
        (free ++ (active.filter (fun p => decide (p.1 ≤ latest))).map Prod.snd) ∧
      resets = (active.filter (fun p => decide (p.1 ≤ latest))).map Prod.snd := by
  simp only [Fence.maintain] at h
  split at h
  · exact absurd h (by simp)
  · rename_i latest hc
    refine ⟨latest, hc, check_active_le d.fenceStatus active l latest hc, ?_⟩
    split at h
    · split at h
      · rw [List.drop_left] at h
        simp only [Option.some.injEq, Prod.mk.injEq] at h
        exact ⟨h.1.symm, h.2.symm⟩
      · exact absurd h (by simp)
    · rename_i hcond
      have hlen : ((active.filter (fun p => decide (p.1 ≤ latest))).map Prod.snd).length = 0 := by
        have h0 := not_ne_iff.mp hcond
        rw [List.length_append] at h0
        omega
      have hfil : active.filter (fun p => decide (p.1 ≤ latest)) = [] :=
        List.map_eq_nil_iff.mp (List.length_eq_zero.mp hlen)
      have hfil2 : active.filter (fun p => decide (latest < p.1)) = active := by
        apply List.filter_eq_self.mpr
        intro p hp
        have := List.filter_eq_nil_iff.mp hfil p hp
        simp only [decide_eq_true_eq] at this ⊢
        omega
      simp only [hfil, hfil2, List.map_nil, List.append_nil] at h ⊢
      simp only [Option.some.injEq, Prod.mk.injEq] at h
      exact ⟨h.1.symm, h.2.symm⟩

/-- C1: on the pool variant, when no native fence-status query fails,
`Fence::get_latest` (via `Fence::check_active`) returns exactly the maximum
value among active entries whose handle is signaled, floored at
`last_completed`. -/
theorem pool_latest_value_is_signaled_max (d : VkDevice) (last_completed : Nat)
    (active : List (Nat × Nat)) (free : List Nat)
    (h : ∀ p ∈ active, (d.fenceStatus p.2).isSome) :
    Fence.get_latest d (.FencePool last_completed active free) =
      some (poolSpecLatest d.fenceStatus last_completed active) :=
  check_active_spec d.fenceStatus active last_completed h

theorem pool_latest_value_is_signaled_max_witness :
    Fence.get_latest testDevice (.FencePool 2 [(3, 1), (5, 2), (7, 3)] []) = some 5 :=
  (pool_latest_value_is_signaled_max testDevice 2 [(3, 1), (5, 2), (7, 3)] []
    (by decide)).trans (by decide)

/-- C2: after a successful pool-variant `maintain` computing completion value
`latest`, every active entry with value `≤ latest` has been moved into `free`
(its handle passed to the native reset), `active` retains exactly the entries
with value `> latest` in their original order, `last_completed` equals
`latest`, and `last_completed` has not decreased. -/
theorem pool_maintain_moves_completed (d : VkDevice) (l : Nat)
    (active : List (Nat × Nat)) (free : List Nat) (f2 : Fence) (resets : List Nat)
    (h : Fence.maintain d (.FencePool l active free) = some (f2, resets)) :
    ∃ latest, Fence.check_active d.fenceStatus l active = some latest ∧
      l ≤ latest ∧
      f2 = .FencePool latest (active.filter (fun p => decide (latest < p.1)))
        (free ++ (active.filter (fun p => decide (p.1 ≤ latest))).map Prod.snd) ∧
      resets = (active.filter (fun p => decide (p.1 ≤ latest))).map Prod.snd :=
  maintain_pool_characterization d l active free f2 resets h

theorem pool_maintain_moves_completed_witness :
    ∃ latest, Fence.check_active testDevice.fenceStatus 2 [(3, 1), (5, 2), (7, 3)] =
        some latest ∧
      2 ≤ latest ∧
      Fence.FencePool 5 [(7, 3)] [9, 1, 2] =
        .FencePool latest
          (List.filter (fun p => decide (latest < p.1)) [(3, 1), (5, 2), (7, 3)])
          ([9] ++ (List.filter (fun p => decide (p.1 ≤ latest))
            [(3, 1), (5, 2), (7, 3)]).map Prod.snd) ∧
      [1, 2] = (List.filter (fun p => decide (p.1 ≤ latest))
        [(3, 1), (5, 2), (7, 3)]).map Prod.snd :=
  pool_maintain_moves_completed testDevice 2 [(3, 1), (5, 2), (7, 3)] [9]
    (.FencePool 5 [(7, 3)] [9, 1, 2]) [1, 2] (by decide)

/-- C3: `maintain` is idempotent on a pool-variant fence — after a successful
`maintain`, calling `maintain` again with unchanged native signaled statuses
leaves `last_completed`, `active` and `free` unchanged and resets no native
fence. -/
theorem pool_maintain_idempotent (d : VkDevice) (l : Nat)
    (active : List (Nat × Nat)) (free : List Nat) (f2 : Fence) (resets : List Nat)
    (h : Fence.maintain d (.FencePool l active free) = some (f2, resets)) :
    Fence.maintain d f2 = some (f2, []) := by
  obtain ⟨latest, hc, _, hf2, -⟩ :=
    maintain_pool_characterization d l active free f2 resets h
  subst hf2
  have hmem : ∀ p ∈ active.filter (fun p => decide (latest < p.1)),
      latest < p.1 ∧ p ∈ active := by
    intro p hp
    have := List.mem_filter.mp hp
    exact ⟨by simpa using this.2, this.1⟩
  have hc2 : Fence.check_active d.fenceStatus latest
      (active.filter (fun p => decide (latest < p.1))) = some latest := by
    apply check_active_stable
    intro p hp
    exact Or.inr (check_active_high_unsignaled d.fenceStatus active l latest hc
      p (hmem p hp).2 (hmem p hp).1)
  have hfil : (active.filter (fun p => decide (latest < p.1))).filter
      (fun p => decide (p.1 ≤ latest)) = [] := by
    apply List.filter_eq_nil_iff.mpr
    intro p hp
    have := (hmem p hp).1
    simp only [decide_eq_true_eq]
    omega
  simp only [Fence.maintain, hc2, hfil, List.map_nil, List.append_nil]
  simp

theorem pool_maintain_idempotent_witness :
    Fence.maintain testDevice (.FencePool 5 [(7, 3)] [9, 1, 2]) =
      some (.FencePool 5 [(7, 3)] [9, 1, 2], []) :=
  pool_maintain_idempotent testDevice 2 [(3, 1), (5, 2), (7, 3)] [9]
    (.FencePool 5 [(7, 3)] [9, 1, 2]) [1, 2] (by decide)

/-- `RelaySemaphoreState`: the semaphores a given submission should wait on
and signal, as returned by `RelaySemaphores::advance`. -/
structure RelaySemaphoreState where
  wait : Option Nat
  signal : Nat
deriving DecidableEq

/-- `RelaySemaphores`: a pair of binary semaphores used to synchronize each
submission with the next, plus the flag saying whether the wait semaphore
should be waited on (false only before the first submission). -/
structure RelaySemaphores where
  wait : Nat
  should_wait : Bool
  signal : Nat
deriving DecidableEq

/-- `RelaySemaphores::new`: two freshly created semaphore handles, with
`should_wait = false` since nothing has signaled the wait semaphore yet. -/
def RelaySemaphores.new (wait signal : Nat) : RelaySemaphores :=
  ⟨wait, false, signal⟩

/-- `RelaySemaphores::advance`: return the wait (only if `should_wait`) and
signal handles for the upcoming submission, then swap `wait` and `signal` and
set `should_wait := true`. -/
def RelaySemaphores.advance (s : RelaySemaphores) :
    RelaySemaphoreState × RelaySemaphores :=
  (⟨if s.should_wait then some s.wait else none, s.signal⟩,
   ⟨s.signal, true, s.wait⟩)

/-- The relay pair after `n` calls to `advance`, starting from a freshly
constructed pair holding handles `a` and `b`. -/
def relayStates (a b : Nat) : Nat → RelaySemaphores
  | 0 => RelaySemaphores.new a b
  | n + 1 => (RelaySemaphores.advance (relayStates a b n)).2

/-- The value returned by the `(n+1)`-th call to `advance` (0-based `n`). -/
def relayOut (a b : Nat) (n : Nat) : RelaySemaphoreState :=
  (RelaySemaphores.advance (relayStates a b n)).1

/-- C4: on a freshly constructed relay pair, the first `advance` returns no
wait handle; every later call returns a wait handle equal to the signal handle
returned by the immediately preceding call (the depth-1 ordering chain); and
the pair always holds exactly the two original semaphore handles. -/
theorem relay_advance_chain (a b : Nat) :
    (relayOut a b 0).wait = none ∧
    (∀ n : Nat, (relayOut a b (n + 1)).wait = some (relayOut a b n).signal) ∧
    (∀ n : Nat,
      ((relayStates a b n).wait = a ∧ (relayStates a b n).signal = b) ∨
      ((relayStates a b n).wait = b ∧ (relayStates a b n).signal = a)) := by
  refine ⟨rfl, fun n => rfl, fun n => ?_⟩
  induction n with
  | zero => exact Or.inl ⟨rfl, rfl⟩
  | succ n ih =>
    rcases ih with ⟨h1, h2⟩ | ⟨h1, h2⟩
    · exact Or.inr ⟨by simp [relayStates, RelaySemaphores.advance, h2],
        by simp [relayStates, RelaySemaphores.advance, h1]⟩
    · exact Or.inl ⟨by simp [relayStates, RelaySemaphores.advance, h2],
        by simp [relayStates, RelaySemaphores.advance, h1]⟩

/-- `SwapchainSemaphores`: the per-swapchain-image semaphore set — the fixed
acquire semaphore, the wait-once flag, the growable pool of present-signal
semaphores with its cursor, and the last fence value that used this image. -/
structure SwapchainSemaphores where
  acquire : Nat
  should_wait_for_acquire : Bool
  present : List Nat
  present_index : Nat
  previously_used_submission_index : Nat
deriving DecidableEq

/-- `SwapchainSemaphores::new` with the freshly created acquire handle. -/
def SwapchainSemaphores.new (acquire : Nat) : SwapchainSemaphores :=
  ⟨acquire, true, [], 0, 0⟩

/-- `SwapchainSemaphores::set_used_fence_value`. -/
def SwapchainSemaphores.set_used_fence_value (s : SwapchainSemaphores)
    (value : Nat) : SwapchainSemaphores :=
  { s with previously_used_submission_index := value }

/-- `SwapchainSemaphores::get_acquire_wait_semaphore`: return the acquire
semaphore and clear the flag if `should_wait_for_acquire` is set, else `none`. -/
def SwapchainSemaphores.get_acquire_wait_semaphore (s : SwapchainSemaphores) :
    Option Nat × SwapchainSemaphores :=
  if s.should_wait_for_acquire then
    (some s.acquire, { s with should_wait_for_acquire := false })
  else
    (none, s)

/-- `SwapchainSemaphores::get_submit_signal_semaphore`: reuse the pool entry at
the cursor if there is one, otherwise create a fresh semaphore (modelled by the
`fresh` handle the native device would return) and push it; then advance the
cursor. -/
def SwapchainSemaphores.get_submit_signal_semaphore (s : SwapchainSemaphores)
    (fresh : Nat) : Nat × SwapchainSemaphores :=
  match s.present[s.present_index]? with
  | some sem => (sem, { s with present_index := s.present_index + 1 })
  | none =>
    (fresh, { s with present := s.present ++ [fresh],
                     present_index := s.present_index + 1 })

/-- `SwapchainSemaphores::get_present_wait_semaphores`: return
`present[0..present_index]` and reset the cursor and the acquire flag. -/
def SwapchainSemaphores.get_present_wait_semaphores (s : SwapchainSemaphores) :
    List Nat × SwapchainSemaphores :=
  (s.present.take s.present_index,
   { s with present_index := 0, should_wait_for_acquire := true })

/-- The operations the submission path may perform on one semaphore set within
one acquire/present cycle (the drain at the cycle's end is applied separately). -/
inductive SwapOp where
  | acquireWait
  | submitSignal (fresh : Nat)
  | setUsed (value : Nat)
deriving DecidableEq

def isSignalOp : SwapOp → Bool
  | .submitSignal _ => true
  | _ => false

/-- One operation on the semaphore set, returning the new set and the list of
present-signal semaphores it handed out (empty or a singleton). -/
def SwapchainSemaphores.step (s : SwapchainSemaphores) :
    SwapOp → SwapchainSemaphores × List Nat
  | .acquireWait => ((s.get_acquire_wait_semaphore).2, [])
  | .submitSignal fresh =>
    ((s.get_submit_signal_semaphore fresh).2, [(s.get_submit_signal_semaphore fresh).1])
  | .setUsed value => (s.set_used_fence_value value, [])

/-- Run a list of operations, accumulating the present-signal semaphores
handed out, in order. -/
def runOps (s : SwapchainSemaphores) : List SwapOp → SwapchainSemaphores × List Nat
  | [] => (s, [])
  | op :: rest =>
    ((runOps (s.step op).1 rest).1, (s.step op).2 ++ (runOps (s.step op).1 rest).2)

theorem step_acquire (s : SwapchainSemaphores) (op : SwapOp) :
    ((s.step op).1).acquire = s.acquire := by
  cases op with
  | acquireWait =>
    by_cases h : s.should_wait_for_acquire <;>
      simp [SwapchainSemaphores.step, SwapchainSemaphores.get_acquire_wait_semaphore, h]
  | submitSignal fresh =>
    simp only [SwapchainSemaphores.step, SwapchainSemaphores.get_submit_signal_semaphore]
    cases s.present[s.present_index]? <;> rfl
  | setUsed value => rfl

theorem runOps_acquire (ops : List SwapOp) :
    ∀ s : SwapchainSemaphores, ((runOps s ops).1).acquire = s.acquire := by
  induction ops with
  | nil => intro s; rfl
  | cons op rest ih =>
    intro s
    simp only [runOps]
    rw [ih (s.step op).1, step_acquire]

theorem runOps_flag (ops : List SwapOp) :
    ∀ s : SwapchainSemaphores,
      (((runOps s ops).1).should_wait_for_acquire = true ↔
        (s.should_wait_for_acquire = true ∧ SwapOp.acquireWait ∉ ops)) := by
  induction ops with
  | nil => intro s; simp [runOps]
  | cons op rest ih =>
    intro s
    simp only [runOps]
    rw [ih (s.step op).1]
    cases op with
    | acquireWait =>
      have hflag : ((s.step SwapOp.acquireWait).1).should_wait_for_acquire = false := by
        by_cases h : s.should_wait_for_acquire <;>
          simp [SwapchainSemaphores.step,
            SwapchainSemaphores.get_acquire_wait_semaphore, h]
      rw [hflag]
      simp
    | submitSignal fresh =>
      have hflag : ((s.step (SwapOp.submitSignal fresh)).1).should_wait_for_acquire =
          s.should_wait_for_acquire := by
        simp only [SwapchainSemaphores.step, SwapchainSemaphores.get_submit_signal_semaphore]
        cases s.present[s.present_index]? <;> rfl
      rw [hflag]
      simp [List.mem_cons]
    | setUsed value =>
      simp [SwapchainSemaphores.step, SwapchainSemaphores.set_used_fence_value,
        List.mem_cons]

theorem step_present_spec (s : SwapchainSemaphores) (op : SwapOp)
    (hs : s.present_index ≤ s.present.length) :
    (s.step op).1.present_index = s.present_index + (s.step op).2.length ∧
    (s.step op).2.length = (if isSignalOp op then 1 else 0) ∧
    (s.step op).1.present_index ≤ (s.step op).1.present.length ∧
    (s.step op).1.present.take (s.step op).1.present_index =
      s.present.take s.present_index ++ (s.step op).2 := by
  cases op with
  | acquireWait =>
    by_cases h : s.should_wait_for_acquire <;>
      simp [SwapchainSemaphores.step,
        SwapchainSemaphores.get_acquire_wait_semaphore, h, hs, isSignalOp]
  | setUsed value =>
    simp [SwapchainSemaphores.step, SwapchainSemaphores.set_used_fence_value, hs, isSignalOp]
  | submitSignal fresh =>
    simp only [SwapchainSemaphores.step, SwapchainSemaphores.get_submit_signal_semaphore,
      isSignalOp]
    cases hg : s.present[s.present_index]? with
    | some sem =>
      have hlt : s.present_index < s.present.length := (List.getElem?_eq_some.mp hg).1
      refine ⟨rfl, rfl, by simpa using hlt, ?_⟩
      rw [List.take_succ, hg]
      rfl
    | none =>
      have hge : s.present.length ≤ s.present_index := by
        by_contra hneg
        rw [List.getElem?_eq_getElem (by omega)] at hg
        exact absurd hg (by simp)
      have heq : s.present_index = s.present.length := Nat.le_antisymm hs hge
      refine ⟨rfl, rfl, by simp; omega, ?_⟩
      show (s.present ++ [fresh]).take (s.present_index + 1) =
        s.present.take s.present_index ++ [fresh]
      rw [heq, List.take_of_length_le (by simp), List.take_length]

theorem runOps_present_spec (ops : List SwapOp) :
    ∀ s : SwapchainSemaphores, s.present_index ≤ s.present.length →
      ((runOps s ops).1.present_index = s.present_index + (runOps s ops).2.length ∧
       (runOps s ops).2.length = ops.countP isSignalOp ∧
       (runOps s ops).1.present_index ≤ (runOps s ops).1.present.length ∧
       (runOps s ops).1.present.take (runOps s ops).1.present_index =
         s.present.take s.present_index ++ (runOps s ops).2) := by
  induction ops with
  | nil =>
    intro s hs
    exact ⟨by simp [runOps], by simp [runOps], by simpa [runOps] using hs,
      by simp [runOps]⟩
  | cons op rest ih =>
    intro s hs
    obtain ⟨h1, h2, h3, h4⟩ := step_present_spec s op hs
    obtain ⟨g1, g2, g3, g4⟩ := ih (s.step op).1 h3
    simp only [runOps]
    refine ⟨?_, ?_, g3, ?_⟩
    · rw [List.length_append, g1, h1]
      omega
    · rw [List.length_append, h2, g2, List.countP_cons]
      omega
    · rw [g4, h4, List.append_assoc]

/-- C5: within one acquire/present cycle (any interleaving of submit-path
operations starting from a state whose acquire flag is set, as after
construction or a drain), `get_acquire_wait_semaphore` returns the fixed
acquire handle exactly on the first call of the cycle and `none` on every
later call, and the drain (`get_present_wait_semaphores`) sets the flag back
so the next cycle returns it once again. -/
theorem acquire_wait_exactly_once (s0 : SwapchainSemaphores) (pre : List SwapOp)
    (h1 : s0.should_wait_for_acquire = true) :
    ((((runOps s0 pre).1).get_acquire_wait_semaphore).1 = some s0.acquire ↔
      SwapOp.acquireWait ∉ pre) ∧
    (SwapOp.acquireWait ∈ pre →
      (((runOps s0 pre).1).get_acquire_wait_semaphore).1 = none) ∧
    ((((runOps s0 pre).1).get_present_wait_semaphores).2).should_wait_for_acquire = true := by
  have hdrain :
      ((((runOps s0 pre).1).get_present_wait_semaphores).2).should_wait_for_acquire = true := rfl
  by_cases hmem : SwapOp.acquireWait ∈ pre
  · have hflagf : ((runOps s0 pre).1).should_wait_for_acquire = false := by
      cases hb : ((runOps s0 pre).1).should_wait_for_acquire
      · rfl
      · exact absurd hmem ((runOps_flag pre s0).mp hb).2
    refine ⟨?_, fun _ => ?_, hdrain⟩
    · simp [SwapchainSemaphores.get_acquire_wait_semaphore, hflagf, hmem]
    · simp [SwapchainSemaphores.get_acquire_wait_semaphore, hflagf]
  · have hflagt : ((runOps s0 pre).1).should_wait_for_acquire = true :=
      (runOps_flag pre s0).mpr ⟨h1, hmem⟩
    refine ⟨?_, fun hmem2 => absurd hmem2 hmem, hdrain⟩
    simp [SwapchainSemaphores.get_acquire_wait_semaphore, hflagt, hmem,
      runOps_acquire]

theorem acquire_wait_exactly_once_witness :
    ((((runOps (SwapchainSemaphores.new 10)
        [SwapOp.submitSignal 20, SwapOp.acquireWait,
         SwapOp.submitSignal 21]).1).get_acquire_wait_semaphore).1 = some 10 ↔
      SwapOp.acquireWait ∉
        [SwapOp.submitSignal 20, SwapOp.acquireWait, SwapOp.submitSignal 21]) ∧
    (SwapOp.acquireWait ∈
        [SwapOp.submitSignal 20, SwapOp.acquireWait, SwapOp.submitSignal 21] →
      (((runOps (SwapchainSemaphores.new 10)
        [SwapOp.submitSignal 20, SwapOp.acquireWait,
         SwapOp.submitSignal 21]).1).get_acquire_wait_semaphore).1 = none) ∧
    ((((runOps (SwapchainSemaphores.new 10)
        [SwapOp.submitSignal 20, SwapOp.acquireWait,
         SwapOp.submitSignal 21]).1).get_present_wait_semaphores).2).should_wait_for_acquire
      = true :=
  acquire_wait_exactly_once (SwapchainSemaphores.new 10)
    [SwapOp.submitSignal 20, SwapOp.acquireWait, SwapOp.submitSignal 21] rfl

/-- C6: from a post-drain state (cursor at 0), the drain returns exactly the
semaphores issued by `get_submit_signal_semaphore` since the previous drain,
in issue order, with length equal to the number of such calls; it resets the
cursor to 0; and a signal call leaves the pool unchanged (reuses an entry)
exactly when the cursor is not past the end of the pool. -/
theorem drain_returns_issued_signals (s0 : SwapchainSemaphores) (ops : List SwapOp)
    (h0 : s0.present_index = 0) :
    ((((runOps s0 ops).1).get_present_wait_semaphores).1 = (runOps s0 ops).2) ∧
    ((runOps s0 ops).2.length = ops.countP isSignalOp) ∧
    ((((runOps s0 ops).1).get_present_wait_semaphores).2.present_index = 0) ∧
    (∀ (s : SwapchainSemaphores) (fresh : Nat),
      ((s.get_submit_signal_semaphore fresh).2.present = s.present ↔
        s.present_index < s.present.length)) := by
  have hs : s0.present_index ≤ s0.present.length := by
    rw [h0]; exact Nat.zero_le _
  obtain ⟨g1, g2, g3, g4⟩ := runOps_present_spec ops s0 hs
  refine ⟨?_, g2, rfl, ?_⟩
  · show ((runOps s0 ops).1).present.take ((runOps s0 ops).1).present_index = _
    rw [g4, h0]
    simp
  · intro s fresh
    cases hg : s.present[s.present_index]? with
    | some sem =>
      have hlt : s.present_index < s.present.length := (List.getElem?_eq_some.mp hg).1
      simp [SwapchainSemaphores.get_submit_signal_semaphore, hg, hlt]
    | none =>
      have hge : s.present.length ≤ s.present_index := by
        by_contra hneg
        rw [List.getElem?_eq_getElem (by omega)] at hg
        exact absurd hg (by simp)
      simp only [SwapchainSemaphores.get_submit_signal_semaphore, hg]
      constructor
      · intro hpres
        have := congrArg List.length hpres
        simp at this
      · intro hlt
        omega

theorem drain_returns_issued_signals_witness :
    (((runOps ⟨10, true, [30], 0, 0⟩
        [SwapOp.acquireWait, SwapOp.submitSignal 40, SwapOp.setUsed 5,
         SwapOp.submitSignal 41]).1).get_present_wait_semaphores).1 = [30, 41] ∧
    (((runOps ⟨10, true, [30], 0, 0⟩
        [SwapOp.acquireWait, SwapOp.submitSignal 40, SwapOp.setUsed 5,
         SwapOp.submitSignal 41]).1).get_present_wait_semaphores).2.present_index = 0 := by
  obtain ⟨h1, -, h3, -⟩ := drain_returns_issued_signals ⟨10, true, [30], 0, 0⟩
    [SwapOp.acquireWait, SwapOp.submitSignal 40, SwapOp.setUsed 5,
     SwapOp.submitSignal 41] rfl
  exact ⟨h1.trans (by decide), h3⟩

/-- The duplicate-surface-texture check inside `Queue::submit`: insert the
`Arc::as_ptr` identity of each surface texture's semaphore set into a hash
set and compare the set's size with the number of surface textures. -/
def duplicate_check (ptrs : List Nat) : Bool :=
  decide ((ptrs.foldl (fun acc p => insert p acc) (∅ : Finset Nat)).card = ptrs.length)

/-- Locking the semaphore set of each surface texture in order, as
`Queue::submit` does after the debug assertion.  Re-locking a set already held
by this very call can never succeed — the per-set mutex deadlocks — which the
model signals with `none`. -/
def lock_sequence : List Nat → List Nat → Option (List Nat)
  | held, [] => some held
  | held, p :: rest =>
    if p ∈ held then none else lock_sequence (held ++ [p]) rest

/-- Outcome of the entry of `Queue::submit` up to (and including) taking the
per-set locks: the debug assertion fired before any lock was taken, or the
lock loop deadlocked, or all sets were locked. -/
inductive SubmitPrologueResult where
  | assertionFailed
  | deadlock
  | locked (held : List Nat)
deriving DecidableEq

/-- The entry of `Queue::submit`: first the `debug_assert!` (compiled in only
when `debug_assertions` holds) validating that all surface textures reference
distinct semaphore sets, then the lock acquisition loop. -/
def submit_prologue (debug_assertions : Bool) (ptrs : List Nat) : SubmitPrologueResult :=
  if debug_assertions && !(duplicate_check ptrs) then
    .assertionFailed
  else
    match lock_sequence [] ptrs with
    | some held => .locked held
    | none => .deadlock

theorem foldl_insert_eq_toFinset (ptrs : List Nat) :
    ∀ s : Finset Nat, ptrs.foldl (fun acc p => insert p acc) s = s ∪ ptrs.toFinset := by
  induction ptrs with
  | nil => intro s; simp
  | cons p rest ih =>
    intro s
    simp only [List.foldl_cons, ih, List.toFinset_cons]
    ext a
    simp only [Finset.mem_union, Finset.mem_insert]
    tauto

theorem duplicate_check_iff (ptrs : List Nat) :
    duplicate_check ptrs = true ↔ ptrs.Nodup := by
  rw [duplicate_check, decide_eq_true_eq, foldl_insert_eq_toFinset,
    Finset.empty_union, List.card_toFinset]
  constructor
  · intro h
    have hsub : ptrs.dedup.Sublist ptrs := ptrs.dedup_sublist
    have := hsub.eq_of_length h
    rw [← this]
    exact ptrs.nodup_dedup
  · intro h
    rw [List.dedup_eq_self.mpr h]

theorem lock_sequence_nodup (ptrs : List Nat) :
    ∀ held : List Nat, (∀ x ∈ ptrs, x ∉ held) → ptrs.Nodup →
      lock_sequence held ptrs = some (held ++ ptrs) := by
  induction ptrs with
  | nil => intro held _ _; simp [lock_sequence]
  | cons p rest ih =>
    intro held hdisj hnd
    have hp : p ∉ held := hdisj p (List.mem_cons_self _ _)
    simp only [lock_sequence, if_neg hp]
    rw [ih (held ++ [p]) ?_ (List.nodup_cons.mp hnd).2]
    · simp
    · intro x hx
      simp only [List.mem_append, List.mem_singleton]
      rintro (h | h)
      · exact hdisj x (List.mem_cons_of_mem _ hx) h
      · subst h
        exact (List.nodup_cons.mp hnd).1 hx

theorem lock_sequence_held_dup (x : Nat) (ptrs : List Nat) :
    ∀ held : List Nat, x ∈ held → x ∈ ptrs → lock_sequence held ptrs = none := by
  induction ptrs with
  | nil => intro held _ hx; exact absurd hx (by simp)
  | cons p rest ih =>
    intro held hheld hx
    by_cases hp : p ∈ held
    · simp [lock_sequence, if_pos hp]
    · simp only [lock_sequence, if_neg hp]
      rcases List.mem_cons.mp hx with h | h
      · subst h
        exact absurd hheld hp
      · exact ih (held ++ [p]) (by simp [hheld]) h

theorem lock_sequence_dup (ptrs : List Nat) :
    ∀ held : List Nat, ¬ ptrs.Nodup → lock_sequence held ptrs = none := by
  induction ptrs with
  | nil => intro held h; exact absurd List.nodup_nil h
  | cons p rest ih =>
    intro held hnd
    by_cases hp : p ∈ held
    · simp [lock_sequence, if_pos hp]
    · simp only [lock_sequence, if_neg hp]
      by_cases hmem : p ∈ rest
      · exact lock_sequence_held_dup p rest (held ++ [p]) (by simp) hmem
      · apply ih
        intro hndrest
        exact hnd (List.nodup_cons.mpr ⟨hmem, hndrest⟩)

/-- C7: the duplicate-surface-texture validation of `Queue::submit` precedes
any semaphore-set lock; its predicate is violated exactly when two surface
textures reference the same semaphore set (by pointer identity); with debug
assertions the duplicate submission is rejected by the assertion before any
lock is taken, while without them (the assertion being debug-only, not a
classified runtime error) the lock loop would deadlock; distinct sets are
always locked, in order. -/
theorem submit_duplicate_validation (ptrs : List Nat) :
    (duplicate_check ptrs = true ↔ ptrs.Nodup) ∧
    (submit_prologue true ptrs = .assertionFailed ↔ ¬ ptrs.Nodup) ∧
    (¬ ptrs.Nodup → submit_prologue false ptrs = .deadlock) ∧
    (ptrs.Nodup → ∀ da : Bool, submit_prologue da ptrs = .locked ptrs) := by
  refine ⟨duplicate_check_iff ptrs, ?_, ?_, ?_⟩
  · constructor
    · intro h hnd
      have hchk : duplicate_check ptrs = true := (duplicate_check_iff ptrs).mpr hnd
      simp only [submit_prologue, hchk, Bool.not_true, Bool.and_false,
        Bool.false_eq_true, if_false] at h
      split at h <;> exact absurd h (by simp)
    · intro hnd
      have hchk : duplicate_check ptrs = false := by
        cases hb : duplicate_check ptrs
        · rfl
        · exact absurd ((duplicate_check_iff ptrs).mp hb) hnd
      simp [submit_prologue, hchk]
  · intro hnd
    simp only [submit_prologue, Bool.false_and, Bool.false_eq_true, if_false]
    rw [lock_sequence_dup ptrs [] hnd]
  · intro hnd da
    have hchk : duplicate_check ptrs = true := (duplicate_check_iff ptrs).mpr hnd
    have hlock : lock_sequence [] ptrs = some ptrs := by
      have := lock_sequence_nodup ptrs [] (by simp) hnd
      simpa using this
    simp [submit_prologue, hchk, hlock]

theorem submit_duplicate_validation_witness :
    (duplicate_check [4, 7, 4] = true ↔ ([4, 7, 4] : List Nat).Nodup) ∧
    (submit_prologue true [4, 7, 4] = .assertionFailed ↔ ¬ ([4, 7, 4] : List Nat).Nodup) ∧
    (¬ ([4, 7, 4] : List Nat).Nodup → submit_prologue false [4, 7, 4] = .deadlock) ∧
    (([4, 7, 4] : List Nat).Nodup → ∀ da : Bool,
      submit_prologue da [4, 7, 4] = .locked [4, 7, 4]) :=
  submit_duplicate_validation [4, 7, 4]

/-- The subset of `vk::Result` codes this layer inspects, plus an `OTHER`
constructor standing for every remaining code. -/
inductive VkResult where
  | SUCCESS
  | SUBOPTIMAL_KHR
  | ERROR_OUT_OF_DATE_KHR
  | ERROR_SURFACE_LOST_KHR
  | ERROR_OUT_OF_HOST_MEMORY
  | ERROR_OUT_OF_DEVICE_MEMORY
  | ERROR_DEVICE_LOST
  | OTHER (code : Int)
deriving DecidableEq

/-- The `crate::DeviceError` variants produced by this file. -/
inductive DeviceError where
  | OutOfMemory
  | Lost
deriving DecidableEq

/-- The `crate::SurfaceError` variants produced by this file (`Device` wraps a
converted `DeviceError`). -/
inductive SurfaceError where
  | Outdated
  | Lost
  | Device (e : DeviceError)
deriving DecidableEq

/-- `impl From<vk::Result> for crate::DeviceError` (with the optional panic
features disabled, as by default): host/device allocation failure maps to
`OutOfMemory`, device loss to `Lost`, and anything else to `Lost` after a
warning log.  The second component records whether that log was emitted. -/
def vk_result_to_device_error : VkResult → DeviceError × Bool
  | .ERROR_OUT_OF_HOST_MEMORY => (.OutOfMemory, false)
  | .ERROR_OUT_OF_DEVICE_MEMORY => (.OutOfMemory, false)
  | .ERROR_DEVICE_LOST => (.Lost, false)
  | _ => (.Lost, true)

/-- `Queue::present`: unwraps the surface's swapchain (`none` models the
`unwrap` panic on an unconfigured surface), drains the texture's semaphore
set for the native present call's wait list, and classifies the native
outcome, which is passed in as the value ash's `queue_present` returned
(`Except.ok suboptimal` or `Except.error code`): `ERROR_OUT_OF_DATE_KHR`
becomes `Outdated`, `ERROR_SURFACE_LOST_KHR` becomes `Lost`, any other error
goes through the generic `DeviceError` conversion, and a suboptimal success is
success with only a warning log (the non-Android build).  The result triple is
(surface result, whether a diagnostic was logged, semaphore set afterwards). -/
def Queue.present (swapchain : Option Unit) (sems : SwapchainSemaphores)
    (native : Except VkResult Bool) :
    Option (Except SurfaceError Unit × Bool × SwapchainSemaphores) :=
  match swapchain with
  | none => none
  | some _ =>
    let drained := sems.get_present_wait_semaphores
    match native with
    | .error e =>
      match e with
      | .ERROR_OUT_OF_DATE_KHR => some (.error .Outdated, false, drained.2)
      | .ERROR_SURFACE_LOST_KHR => some (.error .Lost, false, drained.2)
      | _ =>
        some (.error (.Device (vk_result_to_device_error e).1),
          (vk_result_to_device_error e).2, drained.2)
    | .ok suboptimal => some (.ok (), suboptimal, drained.2)

/-- C8: `present` maps `ERROR_OUT_OF_DATE_KHR` to `Outdated` and
`ERROR_SURFACE_LOST_KHR` to `Lost`; every other failure code falls through to
the generic device-error classification (allocation failures to
`Device OutOfMemory`, device loss to `Device Lost`, unrecognized codes to
`Device Lost` with a log); a suboptimal-but-valid native result is success
with at most a diagnostic log. -/
theorem present_error_mapping (s : SwapchainSemaphores) :
    (Queue.present (some ()) s (.error .ERROR_OUT_OF_DATE_KHR) =
      some (.error .Outdated, false, (s.get_present_wait_semaphores).2)) ∧
    (Queue.present (some ()) s (.error .ERROR_SURFACE_LOST_KHR) =
      some (.error .Lost, false, (s.get_present_wait_semaphores).2)) ∧
    (Queue.present (some ()) s (.error .ERROR_OUT_OF_HOST_MEMORY) =
      some (.error (.Device .OutOfMemory), false, (s.get_present_wait_semaphores).2)) ∧
    (Queue.present (some ()) s (.error .ERROR_OUT_OF_DEVICE_MEMORY) =
      some (.error (.Device .OutOfMemory), false, (s.get_present_wait_semaphores).2)) ∧
    (Queue.present (some ()) s (.error .ERROR_DEVICE_LOST) =
      some (.error (.Device .Lost), false, (s.get_present_wait_semaphores).2)) ∧
    (∀ code : Int, Queue.present (some ()) s (.error (.OTHER code)) =
      some (.error (.Device .Lost), true, (s.get_present_wait_semaphores).2)) ∧
    (∀ suboptimal : Bool, Queue.present (some ()) s (.ok suboptimal) =
      some (.ok (), suboptimal, (s.get_present_wait_semaphores).2)) :=
  ⟨rfl, rfl, rfl, rfl, rfl, fun _ => rfl, fun _ => rfl⟩

/-- C10: calling `present` on a surface whose swapchain is not configured
panics via `unwrap` (modelled by `none`) instead of returning a
`SurfaceError`; with a configured swapchain the unwrap branch is unreachable
and the call always produces a result. -/
theorem present_unconfigured_swapchain_panics :
    (∀ (s : SwapchainSemaphores) (native : Except VkResult Bool),
      Queue.present none s native = none) ∧
    (∀ (s : SwapchainSemaphores) (native : Except VkResult Bool),
      (Queue.present (some ()) s native).isSome = true) := by
  refine ⟨fun s native => rfl, fun s native => ?_⟩
  cases native with
  | ok suboptimal => rfl
  | error e => cases e <;> rfl

/-- C9 counterexample: a pool-variant status query that observes progress
(value 5 above `last_completed = 2`) and still returns the fence unchanged —
`get_latest` takes `&self` and mutates nothing, refuting the spec's claim
that every status query mutates the fence. -/
theorem status_query_mutates_counterexample :
    Fence.get_latest_state testDevice (.FencePool 2 [(3, 1), (5, 2), (7, 3)] [9]) =
      some (5, .FencePool 2 [(3, 1), (5, 2), (7, 3)] [9]) := by
  decide

/-- C9 (amended): a status query never mutates the fence — for both the
timeline and the pool variant, `get_latest` leaves `last_completed`, `active`
and `free` (and the timeline handle) unchanged. -/
theorem status_query_leaves_fence_unchanged (d : VkDevice) (f f2 : Fence) (v : Nat)
    (h : Fence.get_latest_state d f = some (v, f2)) : f2 = f := by
  rw [Fence.get_latest_state] at h
  cases hg : Fence.get_latest d f with
  | none => rw [hg] at h; exact absurd h (by simp)
  | some w =>
    rw [hg] at h
    simp only [Option.map_some', Option.some.injEq, Prod.mk.injEq] at h
    exact h.2.symm

theorem status_query_leaves_fence_unchanged_witness :
    (Fence.FencePool 2 [(3, 1), (5, 2), (7, 3)] [9]) =
      Fence.FencePool 2 [(3, 1), (5, 2), (7, 3)] [9] :=
  status_query_leaves_fence_unchanged testDevice
    (.FencePool 2 [(3, 1), (5, 2), (7, 3)] [9])
    (.FencePool 2 [(3, 1), (5, 2), (7, 3)] [9]) 5 (by decide)
